import Mathlib

/-
Verification of the resampling core of CCI-IceCoreDataResampler.

The binning engine (`resample`), the sparse-region detector (`check_resample`)
and the indexing step (`set_index`) from src/CCI-IceCoreDataResampler/Resample.py
are embedded as pure Lean functions over rational-valued tables.  Missing
values (NaN) are `none`; a table is a list of records; the designated key
column is the `key` field of each record.  The grid generator `frange` is
imported in the source from `scripts.func`, a module that is not part of the
repository, so it is modelled from the specification text.
-/

/-- A record of the series table: the numeric key (the index column) and the
non-key fields in column order, a missing value (NaN) being `none`. -/
structure Row where
  key : ℚ
  vals : List (Option ℚ)
deriving DecidableEq, Repr

/-- Python `int(x)` applied to a numeric value: truncation toward zero
(`int(df.index.min())` / `int(df.index.max())` in `resample`). -/
def pyInt (q : ℚ) : ℤ := if q < 0 then ⌈q⌉ else ⌊q⌋

/-- `df.index.min()`: minimum of the key column (0 for an empty table; the
source would raise on an empty table, and every claim below about `resample`
is stated for nonempty tables or is unaffected by this default). -/
def keyMin (df : List Row) : ℚ :=
  match df.map Row.key with
  | [] => 0
  | x :: xs => xs.foldl min x

/-- `df.index.max()`: maximum of the key column (0 for an empty table). -/
def keyMax (df : List Row) : ℚ :=
  match df.map Row.key with
  | [] => 0
  | x :: xs => xs.foldl max x

/-- Modelled from the spec: the grid generator `frange` is imported in the
source from `scripts.func`, which is missing from the repository.  Per the
spec it generates points counter-based, starting at `top` and stepping by
`inc`, continuing while the point is at most `bot` (inclusive of a point
equal to `bot`).  The spec defines it only for a positive step; for a
non-positive step the generator is given no points here (the spec notes a
non-positive step "would loop indefinitely or produce a degenerate grid"). -/
def frange (top bot : ℤ) (inc : ℚ) : List ℚ :=
  if 0 < inc ∧ top ≤ bot then
    (List.range (⌊((bot : ℚ) - (top : ℚ)) / inc⌋.toNat + 1)).map
      (fun k : ℕ => (top : ℚ) + (k : ℚ) * inc)
  else []

/-- The raw records selected for grid point `i` with half-width `inc`:
`df[(df.index >= i-inc) & (df.index < i+inc)]` in the source (where the
source sets `inc = inc_amt/2`). -/
def window (df : List Row) (inc : ℚ) (i : ℚ) : List Row :=
  df.filter (fun r => decide (i - inc ≤ r.key) && decide (r.key < i + inc))

/-- pandas column mean, `idx.mean()` for one column `j`: the arithmetic mean
of the non-missing values, `none` (NaN) when there is no non-missing value. -/
def colMean (rows : List Row) (j : ℕ) : Option ℚ :=
  let ys := rows.filterMap (fun r => r.vals.getD j none)
  if ys.length = 0 then none else some (ys.sum / (ys.length : ℚ))

/-- pandas row of means, `idx.mean()` across the `ncols` non-key columns. -/
def meanRow (rows : List Row) (ncols : ℕ) : List (Option ℚ) :=
  (List.range ncols).map (fun j => colMean rows j)

/-- `idx.mean().isnull().all()`: every field of the mean row is missing. -/
def allNone (xs : List (Option ℚ)) : Bool := xs.all (fun v => v.isNone)

/-- One iteration of the `for i in range_list` loop of `resample`: append the
mean row to `df_new` and, when it is entirely missing, append `i` to `n_idx`. -/
def resampleStep (df : List Row) (ncols : ℕ) (inc : ℚ)
    (acc : List (List (Option ℚ)) × List ℚ) (i : ℚ) :
    List (List (Option ℚ)) × List ℚ :=
  let m := meanRow (window df inc i) ncols
  (acc.1 ++ [m], if allNone m then acc.2 ++ [i] else acc.2)

/-- The accumulation loop of `resample` over the grid: builds `df_new`'s rows
and the `n_idx` list of empty-window grid points. -/
def resamplePass (df : List Row) (ncols : ℕ) (inc_amt : ℚ) (grid : List ℚ) :
    List (List (Option ℚ)) × List ℚ :=
  grid.foldl (resampleStep df ncols (inc_amt / 2)) ([], [])

/-- `range_list` of `resample`: `list(frange(int(min), int(max), inc_amt))`. -/
def rangeListOf (df : List Row) (inc_amt : ℚ) : List ℚ :=
  frange (pyInt (keyMin df)) (pyInt (keyMax df)) inc_amt

/-- The rows of `df_new` produced by the loop of `resample`. -/
def rowsOf (df : List Row) (ncols : ℕ) (inc_amt : ℚ) : List (List (Option ℚ)) :=
  (resamplePass df ncols inc_amt (rangeListOf df inc_amt)).1

/-- The `n_idx` list produced by the loop of `resample`. -/
def n_idxOf (df : List Row) (ncols : ℕ) (inc_amt : ℚ) : List ℚ :=
  (resamplePass df ncols inc_amt (rangeListOf df inc_amt)).2

/-- The `for i in range(1, len(n_idx)-1)` loop body of `check_resample`,
walking the already reversed list: `prev` is `n_idx[i-1]`, `cur` is
`n_idx[i]`; a pair whose `cur` is the final entry is never examined (the
loop bound is `len(n_idx)-1`); `z` increments when `n_idx[i]+inc ==
n_idx[i-1]` and the function returns `n_idx[i]` the moment `z` reaches 5. -/
def crWalk (inc : ℚ) : ℚ → List ℚ → ℕ → Option ℚ
  | _, [], _ => none
  | prev, cur :: rest, z =>
    if rest.isEmpty then none
    else if cur + inc = prev then
      if z + 1 = 5 then some cur else crWalk inc cur rest (z + 1)
    else crWalk inc cur rest z

/-- `check_resample(n_idx, inc_amt)` from the source.  The Python function
reverses `n_idx` in place (`n_idx.reverse()`), so the embedding returns the
final state of the caller's list together with the returned stop point
(`none` models the implicit `return None`). -/
def check_resample (n_idx : List ℚ) (inc_amt : ℚ) : List ℚ × Option ℚ :=
  match n_idx.reverse with
  | [] => ([], none)
  | h :: t => (h :: t, crWalk inc_amt h t 0)

/-- Adjacent pairs `(l[i-1], l[i])` of a list. -/
def adjPairs (l : List ℚ) : List (ℚ × ℚ) := l.zip l.tail

/-- Run of the counter `z` over an explicit list of `(previous, current)`
pairs: increment on `cur + inc = prev`, never reset, return `cur` the moment
`z` reaches 5. -/
def runZ (inc : ℚ) : List (ℚ × ℚ) → ℕ → Option ℚ
  | [], _ => none
  | (p, c) :: rest, z =>
    if c + inc = p then
      if z + 1 = 5 then some c else runZ inc rest (z + 1)
    else runZ inc rest z

/-- Modelled from the spec (for comparison with the source): find_cutoff as
the spec words it, walking ALL adjacent pairs of the reversed list with the
run counter `z`. -/
def find_cutoff_spec (l : List ℚ) (inc : ℚ) : Option ℚ :=
  runZ inc (adjPairs l.reverse) 0

/-- `df_new.loc[:end]` on the (descending-index) resampled table: pandas
label slicing up to and including label `end`; on a monotonic decreasing
index this keeps exactly the leading rows whose key is at least `end`, and
`end = None` keeps the whole table. -/
def locUpto (rows : List Row) : Option ℚ → List Row
  | none => rows
  | some c => rows.takeWhile (fun r => decide (c ≤ r.key))

/-- `resample(df, by, inc_amt)` from the source: generate `range_list`, run
the accumulation loop, call `check_resample` on `n_idx`, set the grid points
as the index of `df_new`, reverse the row order, and truncate with
`df_new.loc[:end]`. -/
def resample (df : List Row) (ncols : ℕ) (inc_amt : ℚ) : List Row :=
  locUpto
    ((((rangeListOf df inc_amt).zip (rowsOf df ncols inc_amt)).map
        (fun pc => Row.mk pc.1 pc.2)).reverse)
    ((check_resample (n_idxOf df ncols inc_amt) inc_amt).2)

/-- A raw table as handed to `set_index`: named columns with a body of rows
(pandas default positional index 0,1,2,...). -/
structure NamedTable where
  columns : List String
  body : List (List (Option ℚ))
deriving DecidableEq, Repr

/-- `set_index(df, by)` from the source: when column `by` exists it becomes
the index (and is removed from the columns); when it does not,
`df.set_index(by)` raises, the bare `except` prints the message and the
function returns the table UNCHANGED, still on its positional index. -/
def set_index (df : NamedTable) (b : String) : List Row :=
  match df.columns.findIdx? (fun s => s == b) with
  | some j => df.body.map (fun cells => Row.mk ((cells.getD j none).getD 0) (cells.eraseIdx j))
  | none => ((List.range df.body.length).zip df.body).map (fun p => Row.mk (p.1 : ℚ) p.2)

/-- One `(key, increment)` cycle of `set_resample`: `raw_data =
set_index(raw_data_input, b)` followed by `resampled = resample(raw_data, b, i)`
— the source proceeds to `resample` whether or not `set_index` succeeded. -/
def set_resample_once (df : NamedTable) (b : String) (inc_amt : ℚ) : List Row :=
  let ncols := if (df.columns.findIdx? (fun s => s == b)).isSome
    then df.columns.length - 1 else df.columns.length
  resample (set_index df b) ncols inc_amt

/-- The scenario table of the spec: key column 0..10, one data column 1..11. -/
def exDf : List Row :=
  [Row.mk 0 [some 1], Row.mk 1 [some 2], Row.mk 2 [some 3], Row.mk 3 [some 4],
   Row.mk 4 [some 5], Row.mk 5 [some 6], Row.mk 6 [some 7], Row.mk 7 [some 8],
   Row.mk 8 [some 9], Row.mk 9 [some 10], Row.mk 10 [some 11]]

/-- A one-record table with a negative non-integer key. -/
def negDf : List Row := [Row.mk (-(3/2)) []]

/-- A table already exactly on the unit grid whose records are entirely
missing: seven records with keys 0..6 and a single all-NaN data column. -/
def cexDf : List Row :=
  [Row.mk 0 [none], Row.mk 1 [none], Row.mk 2 [none], Row.mk 3 [none],
   Row.mk 4 [none], Row.mk 5 [none], Row.mk 6 [none]]

/-- A two-record table already exactly on the unit grid with data. -/
def df6 : List Row := [Row.mk 0 [some 5], Row.mk 1 [some 7]]

/-- A raw table with a single column named "A", used for the missing key
column scenario. -/
def exNamed : NamedTable := NamedTable.mk ["A"] [[some 1], [some 2], [some 3]]

/-! ### The sparse-region detector: `check_resample` -/

/-- The indexed loop of `check_resample`, walking from a previous entry,
equals the run of `z` over the adjacent pairs with the final pair dropped:
the loop `for i in range(1, len(n_idx)-1)` stops one pair short of the end. -/
theorem crWalk_eq_runZ (inc : ℚ) :
    ∀ (t : List ℚ) (prev : ℚ) (z : ℕ),
      crWalk inc prev t z = runZ inc ((adjPairs (prev :: t)).dropLast) z := by
  intro t
  induction t with
  | nil => intro prev z; simp [crWalk, adjPairs, runZ]
  | cons cur rest ih =>
    intro prev z
    cases rest with
    | nil => simp [crWalk, adjPairs, runZ]
    | cons r rs =>
      have h1 : adjPairs (prev :: cur :: r :: rs)
          = (prev, cur) :: (cur, r) :: adjPairs (r :: rs) := rfl
      have h2 : ((prev, cur) :: (cur, r) :: adjPairs (r :: rs)).dropLast
          = (prev, cur) :: ((cur, r) :: adjPairs (r :: rs)).dropLast := rfl
      have h3 : adjPairs (cur :: r :: rs) = (cur, r) :: adjPairs (r :: rs) := rfl
      rw [h1, h2, runZ, crWalk]
      simp only [List.isEmpty_cons, Bool.false_eq_true, if_false, ih, h3]

/-- The stop point returned by `check_resample` is the run of `z` over the
adjacent pairs of the reversed list with the final pair dropped. -/
theorem check_resample_snd (l : List ℚ) (inc : ℚ) :
    (check_resample l inc).2 = runZ inc ((adjPairs l.reverse).dropLast) 0 := by
  rcases h : l.reverse with _ | ⟨a, t⟩
  · simp [check_resample, h, adjPairs, runZ]
  · simp [check_resample, h, crWalk_eq_runZ]

/-- C10: `check_resample` reverses its input list argument in place
(`n_idx.reverse()`); modelled by explicit state passing, the list state
returned to the caller is the reversal of the list passed in. -/
theorem C10_reverse_in_place (l : List ℚ) (inc_amt : ℚ) :
    (check_resample l inc_amt).1 = l.reverse := by
  rcases h : l.reverse with _ | ⟨a, t⟩ <;> simp [check_resample, h]

/-- C2 counterexample: on the empty-window list [0,1,2,3,4,5] with
increment 1, the counter `z` first reaches 5 at the final adjacent pair of
the reversed list, and there `check_resample` does NOT return the current
grid point: it returns no cutoff, while the walk over all adjacent pairs
described by the claim returns 0. -/
theorem C2_counterexample :
    (check_resample [0, 1, 2, 3, 4, 5] 1).2 = none
    ∧ find_cutoff_spec [0, 1, 2, 3, 4, 5] 1 = some 0 := by
  with_unfolding_all decide

/-- C2 (amended): `check_resample` reverses the list and walks its adjacent
pairs EXCEPT the final one, maintaining a counter `z` incremented exactly
when the current entry plus one increment equals the previous entry, never
resetting `z` on a non-consecutive pair, and returning the current grid
point the moment `z` reaches 5 (`runZ` is exactly that walk, applied to the
adjacent pairs of the reversed list with the last pair dropped). -/
theorem C2_cutoff_walk_amended (l : List ℚ) (inc_amt : ℚ) :
    (check_resample l inc_amt).2 = runZ inc_amt ((adjPairs l.reverse).dropLast) 0 :=
  check_resample_snd l inc_amt

/-- C9: `check_resample` never examines the final adjacent pair of the
reversed list: every list of length at most 2 yields no cutoff, and when
the spec walk over all pairs finds a cutoff but the walk without the final
pair does not, `check_resample` returns no cutoff. -/
theorem C9_last_pair_skipped (l : List ℚ) (inc_amt : ℚ) :
    (l.length ≤ 2 → (check_resample l inc_amt).2 = none)
    ∧ (∀ c : ℚ, find_cutoff_spec l inc_amt = some c →
        runZ inc_amt ((adjPairs l.reverse).dropLast) 0 = none →
        (check_resample l inc_amt).2 = none) := by
  constructor
  · intro hlen
    rw [check_resample_snd]
    have hrev : l.reverse.length ≤ 2 := by simpa using hlen
    rcases hr : l.reverse with _ | ⟨a, _ | ⟨b, _ | ⟨c, t⟩⟩⟩
    · simp [adjPairs, runZ]
    · simp [adjPairs, runZ]
    · simp [adjPairs, runZ]
    · rw [hr] at hrev
      simp at hrev
  · intro c _ h2
    rw [check_resample_snd]
    exact h2

/-- Witness for C9: the two-element list [5, 4] has length at most 2 and
produces no cutoff. -/
theorem C9_witness :
    ([(5 : ℚ), 4].length ≤ 2) ∧ (check_resample [(5 : ℚ), 4] 1).2 = none :=
  ⟨by decide, (C9_last_pair_skipped [5, 4] 1).1 (by decide)⟩

/-! ### Concrete scenarios -/

/-- C4 counterexample: on the scenario table (keys 0..10, data 1..11,
increment 2) the code's half-open centered windows give the means
[1, 5/2, 9/2, 13/2, 17/2, 21/2], not the claimed
[3/2, 7/2, 11/2, 15/2, 19/2, 11]: for grid point 0 the window
[-1, 1) selects only key 0, whose value is 1, not 3/2. -/
theorem C4_counterexample :
    rowsOf exDf 1 2
      = [[some 1], [some (5/2)], [some (9/2)], [some (13/2)], [some (17/2)], [some (21/2)]]
    ∧ rowsOf exDf 1 2
      ≠ [[some (3/2)], [some (7/2)], [some (11/2)], [some (15/2)], [some (19/2)], [some 11]] := by
  set_option maxRecDepth 4000 in
  with_unfolding_all decide

/-- C4 (amended): on the scenario table with increment 2, `resample`
produces exactly the grid points [0, 2, 4, 6, 8, 10] with data means
[1, 5/2, 9/2, 13/2, 17/2, 21/2] (the first boundary window contains the
single value 1 and returns it), an empty `empty_window_grid_points` list,
and no cutoff boundary; the returned table carries these rows in
descending-key order. -/
theorem C4_scenario_amended :
    rangeListOf exDf 2 = [0, 2, 4, 6, 8, 10]
    ∧ rowsOf exDf 1 2
      = [[some 1], [some (5/2)], [some (9/2)], [some (13/2)], [some (17/2)], [some (21/2)]]
    ∧ n_idxOf exDf 1 2 = []
    ∧ (check_resample (n_idxOf exDf 1 2) 2).2 = none
    ∧ resample exDf 1 2 =
        [Row.mk 10 [some (21/2)], Row.mk 8 [some (17/2)], Row.mk 6 [some (13/2)],
         Row.mk 4 [some (9/2)], Row.mk 2 [some (5/2)], Row.mk 0 [some 1]] := by
  set_option maxRecDepth 4000 in
  with_unfolding_all decide

/-- C3 counterexample: on a table whose only key is -3/2, `int(min)` in the
source truncates toward zero, so the grid starts (and ends) at -1, while
floor(min(key)) is -2: the generated grid does not start at the floor of
the minimum key. -/
theorem C3_counterexample :
    keyMin negDf = -(3/2)
    ∧ (⌊keyMin negDf⌋ : ℤ) = -2
    ∧ rangeListOf negDf 1 = [-1]
    ∧ ((-1 : ℚ) ≠ ((-2 : ℤ) : ℚ)) := by
  with_unfolding_all decide

/-- C6 counterexample: a table of seven all-missing records lying exactly
on the unit grid (keys 0..6, one record per grid point) satisfies the
claim's premise, yet `resample` returns only six rows — every window is
empty, `check_resample` finds the cutoff 1, and `df_new.loc[:end]` drops
the deepest row — so the output is not the input reversed. -/
theorem C6_counterexample :
    cexDf.map Row.key = rangeListOf cexDf 1
    ∧ (∀ r ∈ cexDf, r.vals.length = 1)
    ∧ (resample cexDf 1 1).length = 6
    ∧ cexDf.reverse.length = 7
    ∧ resample cexDf 1 1 ≠ cexDf.reverse := by
  with_unfolding_all decide

/-- C7: the source performs NO increment validation: `resample` goes
straight from `int(min)`/`int(max)` to the `frange` call, so for the
scenario table with increment -1 it returns an ordinary (empty-grid) value
instead of failing fast with an "invalid increment" condition — there is no
error path for a non-positive increment anywhere in `resample` (the modelled
`frange` yields no points for a non-positive step; the source generator
would not terminate). -/
theorem C7_no_increment_check :
    resample exDf 1 (-1) = [] ∧ rangeListOf exDf (-1) = [] := by
  with_unfolding_all decide

/-- C8: on a table whose only column is "A", requesting the key column
"Depth" makes `df.set_index(by)` raise; the bare `except` in `set_index`
prints a message and returns the table UNCHANGED on its positional index,
and `set_resample` then resamples it anyway, producing three output rows —
the (key, increment) request is not aborted and resampled output IS
produced. -/
theorem C8_missing_column_no_abort :
    (exNamed.columns.findIdx? (fun s => s == "Depth")) = none
    ∧ set_index exNamed "Depth" = [Row.mk 0 [some 1], Row.mk 1 [some 2], Row.mk 2 [some 3]]
    ∧ set_resample_once exNamed "Depth" 1 =
        [Row.mk 2 [some 3], Row.mk 1 [some 2], Row.mk 0 [some 1]] := by
  with_unfolding_all decide

/-! ### The accumulation loop of `resample` -/

/-- The append-in-loop accumulation of `resample` is the map of mean rows
over the grid together with the filter of all-missing grid points. -/
theorem resamplePass_go (df : List Row) (ncols : ℕ) (inc : ℚ) :
    ∀ (grid : List ℚ) (a : List (List (Option ℚ))) (b : List ℚ),
      grid.foldl (resampleStep df ncols inc) (a, b) =
        (a ++ grid.map (fun g => meanRow (window df inc g) ncols),
         b ++ grid.filter (fun g => allNone (meanRow (window df inc g) ncols))) := by
  intro grid
  induction grid with
  | nil => intro a b; simp
  | cons g t ih =>
    intro a b
    by_cases h : allNone (meanRow (window df inc g) ncols)
    · simp [resampleStep, h, ih, List.filter_cons]
    · simp [resampleStep, h, ih, List.filter_cons]

/-- The rows appended to `df_new` are the mean rows over the grid, in grid
order. -/
theorem rowsOf_eq (df : List Row) (ncols : ℕ) (inc_amt : ℚ) :
    rowsOf df ncols inc_amt
      = (rangeListOf df inc_amt).map (fun g => meanRow (window df (inc_amt/2) g) ncols) := by
  simp [rowsOf, resamplePass, resamplePass_go]

/-- The `n_idx` list is the filter of the grid by the all-missing test, in
grid order. -/
theorem n_idxOf_eq (df : List Row) (ncols : ℕ) (inc_amt : ℚ) :
    n_idxOf df ncols inc_amt
      = (rangeListOf df inc_amt).filter
          (fun g => allNone (meanRow (window df (inc_amt/2) g) ncols)) := by
  simp [n_idxOf, resamplePass, resamplePass_go]

/-! ### The grid generator -/

/-- The generated grid is strictly increasing. -/
theorem frange_pairwise (top bot : ℤ) (inc : ℚ) :
    List.Pairwise (· < ·) (frange top bot inc) := by
  unfold frange
  split
  · rename_i h
    refine List.Pairwise.map _ ?_ (List.pairwise_lt_range _)
    intro a b hab
    have hq : (a : ℚ) < (b : ℚ) := by exact_mod_cast hab
    have h2 := mul_lt_mul_of_pos_right hq h.1
    linarith
  · exact List.Pairwise.nil

/-- The i-th grid point is `top + i * inc`. -/
theorem frange_get (top bot : ℤ) (inc : ℚ) (h : 0 < inc) (hle : top ≤ bot)
    (i : ℕ) (hi : i < (frange top bot inc).length) :
    (frange top bot inc).get ⟨i, hi⟩ = (top : ℚ) + (i : ℚ) * inc := by
  have hif : (0 < inc ∧ top ≤ bot) := ⟨h, hle⟩
  simp [List.get_eq_getElem, frange, hif]

/-- Every grid point lies between `top` and `bot`. -/
theorem frange_mem_bounds (top bot : ℤ) (inc : ℚ) (h : 0 < inc)
    (g : ℚ) (hg : g ∈ frange top bot inc) : (top : ℚ) ≤ g ∧ g ≤ (bot : ℚ) := by
  unfold frange at hg
  split at hg
  case isTrue hif =>
    rw [List.mem_map] at hg
    obtain ⟨k, hk, rfl⟩ := hg
    rw [List.mem_range] at hk
    have htb : (top : ℚ) ≤ (bot : ℚ) := by exact_mod_cast hif.2
    constructor
    · have hnn : 0 ≤ (k : ℚ) * inc := mul_nonneg (by positivity) (le_of_lt h)
      linarith
    · have hnn : 0 ≤ ⌊((bot : ℚ) - (top : ℚ)) / inc⌋ := by
        apply Int.floor_nonneg.mpr
        apply div_nonneg _ (le_of_lt h)
        linarith
      have hk2 : (k : ℤ) ≤ ⌊((bot : ℚ) - (top : ℚ)) / inc⌋ := by omega
      have hk3 : (k : ℚ) ≤ ((bot : ℚ) - (top : ℚ)) / inc := by
        calc (k : ℚ) ≤ ((⌊((bot : ℚ) - (top : ℚ)) / inc⌋ : ℤ) : ℚ) := by exact_mod_cast hk2
          _ ≤ ((bot : ℚ) - (top : ℚ)) / inc := Int.floor_le _
      have hmul := (le_div_iff₀ h).mp hk3
      linarith
  case isFalse => simp at hg

/-- When `bot - top` is a natural multiple of `inc`, the final grid point
equals `bot`. -/
theorem frange_getLast (top bot : ℤ) (inc : ℚ) (h : 0 < inc) (hle : top ≤ bot)
    (k : ℕ) (hdiv : (bot : ℚ) - (top : ℚ) = (k : ℚ) * inc) :
    (frange top bot inc).getLast? = some ((bot : ℤ) : ℚ) := by
  have hfl : ⌊((bot : ℚ) - (top : ℚ)) / inc⌋ = (k : ℤ) := by
    rw [hdiv, mul_div_cancel_right₀ _ (ne_of_gt h), Int.floor_natCast]
  have hif : (0 < inc ∧ top ≤ bot) := ⟨h, hle⟩
  rw [frange, if_pos hif, hfl, Int.toNat_natCast, List.range_succ, List.map_append,
    List.map_singleton, List.getLast?_concat]
  simp only [List.map_cons, List.map_nil, Option.some_inj]
  linarith

/-! ### Truncation toward zero and the key range -/

/-- Python `int()` is monotone on rationals. -/
theorem pyInt_mono {a b : ℚ} (hab : a ≤ b) : pyInt a ≤ pyInt b := by
  unfold pyInt
  split <;> split
  · exact Int.ceil_mono hab
  · rename_i h1 h2
    have hb : (0 : ℚ) ≤ b := le_of_not_lt h2
    calc ⌈a⌉ ≤ (0 : ℤ) := Int.ceil_le.mpr (by push_cast; linarith)
      _ ≤ ⌊b⌋ := Int.floor_nonneg.mpr hb
  · rename_i h1 h2
    have ha : (0 : ℚ) ≤ a := le_of_not_lt h1
    linarith
  · exact Int.floor_mono hab

/-- The running minimum is below the seed. -/
theorem foldl_min_le_init (xs : List ℚ) : ∀ (x : ℚ), xs.foldl min x ≤ x := by
  induction xs with
  | nil => intro x; simp
  | cons y t ih =>
    intro x
    calc t.foldl min (min x y) ≤ min x y := ih _
      _ ≤ x := min_le_left _ _

/-- The running maximum is above the seed. -/
theorem le_foldl_max_init (xs : List ℚ) : ∀ (x : ℚ), x ≤ xs.foldl max x := by
  induction xs with
  | nil => intro x; simp
  | cons y t ih =>
    intro x
    calc x ≤ max x y := le_max_left _ _
      _ ≤ t.foldl max (max x y) := ih _

/-- On a nonempty table the key minimum is at most the key maximum. -/
theorem keyMin_le_keyMax (df : List Row) (hne : df ≠ []) : keyMin df ≤ keyMax df := by
  cases hdf : df.map Row.key with
  | nil =>
    cases df with
    | nil => exact absurd rfl hne
    | cons r t => simp at hdf
  | cons x xs =>
    rw [keyMin, keyMax, hdf]
    calc xs.foldl min x ≤ x := foldl_min_le_init xs x
      _ ≤ xs.foldl max x := le_foldl_max_init xs x

/-- C3 (amended): for every nonempty table with finite numeric keys and
every positive increment, the generated grid starts at the truncation
toward zero of min(key) (which is floor(min(key)) whenever min(key) is
non-negative, but not in general — the source uses Python `int`, not
floor), consecutive grid points differ by exactly the increment, every grid
point lies within [trunc(min(key)), trunc(max(key))], and the grid includes
a final point equal to trunc(max(key)) when trunc(max(key)) −
trunc(min(key)) is a natural multiple of the increment. -/
theorem C3_grid_amended (df : List Row) (inc_amt : ℚ)
    (hne : df ≠ []) (hinc : 0 < inc_amt) :
    (rangeListOf df inc_amt).head? = some ((pyInt (keyMin df) : ℤ) : ℚ)
    ∧ List.Chain' (fun a b => b = a + inc_amt) (rangeListOf df inc_amt)
    ∧ (∀ g ∈ rangeListOf df inc_amt,
        ((pyInt (keyMin df) : ℤ) : ℚ) ≤ g ∧ g ≤ ((pyInt (keyMax df) : ℤ) : ℚ))
    ∧ (∀ k : ℕ,
        ((pyInt (keyMax df) : ℤ) : ℚ) - ((pyInt (keyMin df) : ℤ) : ℚ) = (k : ℚ) * inc_amt →
        (rangeListOf df inc_amt).getLast? = some ((pyInt (keyMax df) : ℤ) : ℚ)) := by
  have hle : pyInt (keyMin df) ≤ pyInt (keyMax df) := pyInt_mono (keyMin_le_keyMax df hne)
  have hif : (0 < inc_amt ∧ pyInt (keyMin df) ≤ pyInt (keyMax df)) := ⟨hinc, hle⟩
  refine ⟨?_, ?_, ?_, ?_⟩
  · rw [rangeListOf, frange, if_pos hif, List.range_succ_eq_map]
    simp
  · rw [rangeListOf, List.chain'_iff_get]
    intro i hilt
    rw [frange_get _ _ _ hinc hle, frange_get _ _ _ hinc hle]
    push_cast
    ring
  · intro g hg
    exact frange_mem_bounds _ _ _ hinc g hg
  · intro k hdiv
    exact frange_getLast _ _ _ hinc hle k hdiv

/-- Witness for C3 on the scenario table with increment 2: the table is
nonempty, the increment positive, and the grid head is the truncated
minimum key. -/
theorem C3_witness :
    exDf ≠ [] ∧ (0 : ℚ) < 2
    ∧ (rangeListOf exDf 2).head? = some ((pyInt (keyMin exDf) : ℤ) : ℚ) :=
  ⟨by with_unfolding_all decide, by norm_num,
   (C3_grid_amended exDf 2 (by with_unfolding_all decide) (by norm_num)).1⟩

/-! ### Mean rows -/

/-- A field of the mean row is missing exactly when every selected record is
missing in that field (in particular when no record is selected). -/
theorem colMean_eq_none (rows : List Row) (j : ℕ) :
    colMean rows j = none ↔ ∀ r ∈ rows, r.vals.getD j none = none := by
  rw [colMean]
  split
  · rename_i h0
    simp only [true_iff]
    exact List.filterMap_eq_nil_iff.mp (List.length_eq_zero.mp h0)
  · rename_i h0
    constructor
    · intro hcontra
      exact absurd hcontra (by simp)
    · intro hall
      exact absurd (by rw [List.length_eq_zero]; exact List.filterMap_eq_nil_iff.mpr hall) h0

/-- The j-th field of the mean row is the column mean of column j. -/
theorem meanRow_getD (rows : List Row) (ncols j : ℕ) (hj : j < ncols) :
    (meanRow rows ncols).getD j none = colMean rows j := by
  have hlen : j < (meanRow rows ncols).length := by simpa [meanRow] using hj
  rw [List.getD_eq_getElem _ _ hlen]
  simp [meanRow]

/-- C1: the rows appended by `resample` are exactly the mean rows of the
records selected by the half-open window `g − inc/2 ≤ key < g + inc/2`
around each generated grid point `g`, in grid order; a field of an output
row is missing exactly when all selected records (possibly none) are
missing in that field; and the grid points whose output row is entirely
missing form the `n_idx` list, in ascending grid-generation order. -/
theorem C1_resample_window_mean_and_empties (df : List Row) (ncols : ℕ) (inc_amt : ℚ) :
    rowsOf df ncols inc_amt
      = (rangeListOf df inc_amt).map (fun g => meanRow (window df (inc_amt/2) g) ncols)
    ∧ (∀ (r : Row) (g : ℚ), r ∈ window df (inc_amt/2) g
        ↔ r ∈ df ∧ g - inc_amt/2 ≤ r.key ∧ r.key < g + inc_amt/2)
    ∧ (∀ (rows : List Row) (j : ℕ), j < ncols →
        ((meanRow rows ncols).getD j none = none ↔ ∀ r ∈ rows, r.vals.getD j none = none))
    ∧ n_idxOf df ncols inc_amt
      = (rangeListOf df inc_amt).filter
          (fun g => allNone (meanRow (window df (inc_amt/2) g) ncols))
    ∧ List.Pairwise (· < ·) (n_idxOf df ncols inc_amt) := by
  refine ⟨rowsOf_eq df ncols inc_amt, ?_, ?_, n_idxOf_eq df ncols inc_amt, ?_⟩
  · intro r g
    simp [window, List.mem_filter, and_assoc]
  · intro rows j hj
    rw [meanRow_getD rows ncols j hj]
    exact colMean_eq_none rows j
  · rw [n_idxOf_eq]
    exact (frange_pairwise _ _ _).filter _

/-- Witness for C1: the missing-iff-all-missing clause at column 0 of an
empty selection. -/
theorem C1_witness :
    (0 < 1) ∧ ((meanRow [] 1).getD 0 none = none ↔ ∀ r ∈ ([] : List Row), r.vals.getD 0 none = none) :=
  ⟨by decide, (C1_resample_window_mean_and_empties [] 1 1).2.2.1 [] 0 (by decide)⟩

/-! ### Output order and truncation -/

/-- C5: the table returned by `resample` is in descending-key order; when
`check_resample` finds no cutoff the table is untruncated (its keys are the
whole grid, reversed), and when a cutoff `c` is found every returned row
has key at least `c`. -/
theorem C5_order_and_truncation (df : List Row) (ncols : ℕ) (inc_amt : ℚ) :
    List.Pairwise (· > ·) ((resample df ncols inc_amt).map Row.key)
    ∧ ((check_resample (n_idxOf df ncols inc_amt) inc_amt).2 = none →
        (resample df ncols inc_amt).map Row.key = (rangeListOf df inc_amt).reverse)
    ∧ (∀ c : ℚ, (check_resample (n_idxOf df ncols inc_amt) inc_amt).2 = some c →
        ∀ r ∈ resample df ncols inc_amt, c ≤ r.key) := by
  have hlen : (rangeListOf df inc_amt).length ≤ (rowsOf df ncols inc_amt).length := by
    rw [rowsOf_eq]
    simp
  have hkeys : (((rangeListOf df inc_amt).zip (rowsOf df ncols inc_amt)).map
      (fun pc => Row.mk pc.1 pc.2)).map Row.key = rangeListOf df inc_amt := by
    rw [List.map_map]
    have hcomp : (Row.key ∘ fun pc : ℚ × List (Option ℚ) => Row.mk pc.1 pc.2)
        = Prod.fst := rfl
    rw [hcomp, List.map_fst_zip _ _ hlen]
  have hXrev : List.Pairwise (· > ·)
      ((((rangeListOf df inc_amt).zip (rowsOf df ncols inc_amt)).map
        (fun pc => Row.mk pc.1 pc.2)).reverse.map Row.key) := by
    rw [List.map_reverse, hkeys, List.pairwise_reverse]
    exact frange_pairwise _ _ _
  refine ⟨?_, ?_, ?_⟩
  · rw [resample]
    cases hend : (check_resample (n_idxOf df ncols inc_amt) inc_amt).2 with
    | none =>
      rw [locUpto]
      exact hXrev
    | some c =>
      rw [locUpto]
      exact hXrev.sublist ((List.takeWhile_sublist _).map Row.key)
  · intro hend
    rw [resample, hend, locUpto, List.map_reverse, hkeys]
  · intro c hend r hr
    rw [resample, hend, locUpto] at hr
    have := List.mem_takeWhile_imp hr
    simpa using this

/-- Witness for C5 on the scenario table with increment 2, where no cutoff
is found and the returned keys are the whole grid reversed. -/
theorem C5_witness :
    (check_resample (n_idxOf exDf 1 2) 2).2 = none
    ∧ (resample exDf 1 2).map Row.key = (rangeListOf exDf 2).reverse := by
  have h : (check_resample (n_idxOf exDf 1 2) 2).2 = none := by
    set_option maxRecDepth 4000 in
    with_unfolding_all decide
  exact ⟨h, (C5_order_and_truncation exDf 1 2).2.1 h⟩

/-! ### Idempotence on an exact grid -/

/-- A filter whose predicate holds at exactly one index keeps exactly that
element. -/
theorem filter_eq_singleton_of_char {α : Type} (l : List α) (p : α → Bool) :
    ∀ (k : ℕ) (hk : k < l.length),
      (∀ (j : ℕ) (hj : j < l.length), (p (l.get ⟨j, hj⟩) = true ↔ j = k)) →
      l.filter p = [l.get ⟨k, hk⟩] := by
  induction l with
  | nil =>
    intro k hk
    simp at hk
  | cons a t ih =>
    intro k hk hchar
    cases k with
    | zero =>
      have hpa : p a = true := (hchar 0 (by simp)).mpr rfl
      rw [List.filter_cons_of_pos hpa]
      have hnil : t.filter p = [] := by
        rw [List.filter_eq_nil_iff]
        intro b hb
        obtain ⟨⟨j, hj⟩, rfl⟩ := List.mem_iff_get.mp hb
        have hj1 := hchar (j + 1) (by simpa using hj)
        simp at hj1
        simpa using hj1
      rw [hnil]
      rfl
    | succ m =>
      have hpa : ¬ p a = true := by
        intro hcon
        have h0 := (hchar 0 (by simp)).mp hcon
        simp at h0
      rw [List.filter_cons_of_neg hpa]
      have hm : m < t.length := by simpa using hk
      have hchar2 : ∀ (j : ℕ) (hj : j < t.length), (p (t.get ⟨j, hj⟩) = true ↔ j = m) := by
        intro j hj
        have hj1 := hchar (j + 1) (by simpa using hj)
        simpa using hj1
      rw [ih m hm hchar2]
      rfl

/-- The column mean of a single record is that record's field. -/
theorem colMean_singleton (r : Row) (j : ℕ) :
    colMean [r] j = r.vals.getD j none := by
  rw [colMean]
  rcases hv : r.vals.getD j none with _ | v
  · simp only [List.filterMap_cons, List.filterMap_nil, hv]
    simp
  · simp only [List.filterMap_cons, List.filterMap_nil, hv]
    simp

/-- The mean row of a single record of full width is that record's fields. -/
theorem meanRow_singleton (r : Row) (ncols : ℕ) (hlen : r.vals.length = ncols) :
    meanRow [r] ncols = r.vals := by
  apply List.ext_get
  · simp [meanRow, hlen]
  · intro n h1 h2
    rw [List.get_eq_getElem, List.get_eq_getElem]
    simp [meanRow, colMean_singleton]
    simp [List.getElem?_eq_getElem h2]

/-- Reassembling a table from its key and value columns is the identity. -/
theorem zip_key_vals (rs : List Row) :
    ((rs.map Row.key).zip (rs.map Row.vals)).map (fun pc => Row.mk pc.1 pc.2) = rs := by
  induction rs with
  | nil => rfl
  | cons r t ih => simp [ih]

/-- C6 (amended): for every table whose records already lie exactly on the
target grid (one record per grid point: the key column equals the generated
grid), with full-width records of which every one has at least one
non-missing value, `resample` returns that table unchanged in row values,
with row order equal to the input order reversed. -/
theorem C6_idempotence_amended (df : List Row) (ncols : ℕ) (inc_amt : ℚ)
    (hne : df ≠ []) (hinc : 0 < inc_amt)
    (hkeys : df.map Row.key = rangeListOf df inc_amt)
    (hlen : ∀ r ∈ df, r.vals.length = ncols)
    (hsome : ∀ r ∈ df, ∃ v ∈ r.vals, v.isSome = true) :
    resample df ncols inc_amt = df.reverse := by
  have hle : pyInt (keyMin df) ≤ pyInt (keyMax df) := pyInt_mono (keyMin_le_keyMax df hne)
  have hlen2 : df.length = (rangeListOf df inc_amt).length := by
    rw [← hkeys]
    simp
  have hkey_get : ∀ (k : ℕ) (hk : k < df.length),
      (df.get ⟨k, hk⟩).key = ((pyInt (keyMin df) : ℤ) : ℚ) + (k : ℚ) * inc_amt := by
    intro k hk
    have hmap : (df.map Row.key).get ⟨k, by simpa using hk⟩
        = (df.get ⟨k, hk⟩).key := by
      simp [List.get_eq_getElem]
    have heq := List.get_of_eq hkeys ⟨k, by simpa using hk⟩
    rw [hmap] at heq
    rw [heq]
    exact frange_get _ _ _ hinc hle k _
  have hwin : ∀ (k : ℕ) (hk : k < df.length),
      window df (inc_amt/2) ((df.get ⟨k, hk⟩).key) = [df.get ⟨k, hk⟩] := by
    intro k hk
    rw [window]
    apply filter_eq_singleton_of_char df _ k hk
    intro j hj
    rw [hkey_get j hj, hkey_get k hk]
    simp only [Bool.and_eq_true, decide_eq_true_eq]
    constructor
    · rintro ⟨hA, hB⟩
      rcases lt_trichotomy j k with hjk | hjk | hjk
      · exfalso
        have hj1 : (j : ℚ) + 1 ≤ (k : ℚ) := by exact_mod_cast hjk
        have hm : ((j : ℚ) + 1) * inc_amt ≤ (k : ℚ) * inc_amt :=
          mul_le_mul_of_nonneg_right hj1 (le_of_lt hinc)
        ring_nf at hm
        linarith
      · exact hjk
      · exfalso
        have hk1 : (k : ℚ) + 1 ≤ (j : ℚ) := by exact_mod_cast hjk
        have hm : ((k : ℚ) + 1) * inc_amt ≤ (j : ℚ) * inc_amt :=
          mul_le_mul_of_nonneg_right hk1 (le_of_lt hinc)
        ring_nf at hm
        linarith
    · rintro rfl
      constructor <;> linarith
  have hrows : rowsOf df ncols inc_amt = df.map Row.vals := by
    rw [rowsOf_eq, ← hkeys, List.map_map]
    apply List.map_congr_left
    intro r hr
    obtain ⟨⟨k, hk⟩, rfl⟩ := List.mem_iff_get.mp hr
    simp only [Function.comp_apply]
    rw [hwin k hk, meanRow_singleton _ _ (hlen _ (List.get_mem df _ _))]
  have hnidx : n_idxOf df ncols inc_amt = [] := by
    rw [n_idxOf_eq, ← hkeys, List.filter_eq_nil_iff]
    intro g hg
    rw [List.mem_map] at hg
    obtain ⟨r, hr, rfl⟩ := hg
    obtain ⟨⟨k, hk⟩, rfl⟩ := List.mem_iff_get.mp hr
    rw [hwin k hk, meanRow_singleton _ _ (hlen _ (List.get_mem df _ _))]
    intro hall
    obtain ⟨v, hv, hvs⟩ := hsome _ (List.get_mem df k hk)
    rw [allNone, List.all_eq_true] at hall
    have hvn := hall v hv
    rcases v with _ | w
    · simp at hvs
    · simp at hvn
  have hzip : (((rangeListOf df inc_amt).zip (rowsOf df ncols inc_amt)).map
      (fun pc => Row.mk pc.1 pc.2)) = df := by
    rw [hrows, ← hkeys, zip_key_vals]
  rw [resample, hnidx]
  rw [show (check_resample ([] : List ℚ) inc_amt).2 = none from rfl]
  rw [locUpto, hzip]

/-- Witness for C6: the two-record table with keys 0, 1 and values 5, 7 on
the unit grid is returned reversed and otherwise unchanged. -/
theorem C6_witness :
    (df6 ≠ [] ∧ (0 : ℚ) < 1 ∧ df6.map Row.key = rangeListOf df6 1
      ∧ (∀ r ∈ df6, r.vals.length = 1) ∧ (∀ r ∈ df6, ∃ v ∈ r.vals, v.isSome = true))
    ∧ resample df6 1 1 = df6.reverse :=
  ⟨⟨by with_unfolding_all decide, by norm_num, by with_unfolding_all decide,
    by with_unfolding_all decide, by with_unfolding_all decide⟩,
   C6_idempotence_amended df6 1 1 (by with_unfolding_all decide) (by norm_num)
     (by with_unfolding_all decide) (by with_unfolding_all decide)
     (by with_unfolding_all decide)⟩
